import Mathlib

/-!
Verification of the Meteora DAMM V2 position manager.

Shallow embedding of the repository's core logic:
* `src/meteora-client.ts` — `getCurrentFeeRate`, `isPoolEligibleForClosing`,
  `getUserPositions`, `claimFees` (primary/alternative fallback);
* `src/index.ts` — the fee filter in `claimAllFees`, the fee-rate/deposit
  filters in `handleCloseAll`, and the per-position batch loop of
  `closeAllPositions`;
* `src/utils.ts` — `retry`.

Remote effects (RPC fetches, Jupiter quotes, transaction submission) are
modelled as explicit environment functions; a JavaScript exception thrown by
an external call is modelled as an `Option`/`Except`/`StepOutcome` failure
value.  JavaScript numeric arithmetic is modelled exactly over `ℤ`/`ℚ`
(`Math.floor(x / y)` becomes `⌊(x : ℚ) / y⌋`).
-/

/-- JavaScript `x || d` on an optional numeric field: the default `d` is used
when the field is missing or zero (`0` is falsy in JavaScript). -/
def jsOr (o : Option ℤ) (d : ℤ) : ℤ :=
  match o with
  | none => d
  | some v => if v = 0 then d else v

/-- `Math.floor(a / b)` on JavaScript numbers: the floor of the exact
rational quotient. -/
def jsFloorDiv (a b : ℤ) : ℤ := ⌊(a : ℚ) / (b : ℚ)⌋

/-- The `poolState.poolFees.baseFee` record of `getCurrentFeeRate`
(`meteora-client.ts:77-84`).  Each field is optional: the source reads them
off a loosely-typed SDK object and applies `|| default`. -/
structure BaseFee where
  cliffFeeNumerator : Option ℤ
  numberOfPeriod : Option ℤ
  reductionFactor : Option ℤ
  periodFrequency : Option ℤ
  feeSchedulerMode : Option ℤ
  deriving Repr, DecidableEq

/-- The slice of a pool state that `getCurrentFeeRate` reads.  `poolFees`
collapses the source's `poolState.poolFees && poolState.poolFees.baseFee`
presence check into a single `Option`. -/
structure PoolState where
  poolFees : Option BaseFee
  activationPoint : Option ℤ
  deriving Repr, DecidableEq

/-- The numeric fee-schedule parameters after the defaulting in
`meteora-client.ts:80-87`. -/
structure FeeSchedule where
  cliffFeeNumerator : ℤ
  numberOfPeriod : ℤ
  reductionFactor : ℤ
  periodFrequency : ℤ
  feeSchedulerMode : ℤ
  activationPoint : ℤ
  deriving Repr, DecidableEq

/-- Parameter extraction of `getCurrentFeeRate` (`meteora-client.ts:80-87`):
`Number(baseFee.cliffFeeNumerator || 0)`, `baseFee.numberOfPeriod || 0`,
`Number(baseFee.reductionFactor || 0)`, `Number(baseFee.periodFrequency || 1)`,
`baseFee.feeSchedulerMode || 0`, `Number(poolState.activationPoint || 0)`. -/
def extractSchedule (bf : BaseFee) (activationPoint : Option ℤ) : FeeSchedule :=
  ⟨jsOr bf.cliffFeeNumerator 0, jsOr bf.numberOfPeriod 0, jsOr bf.reductionFactor 0,
   jsOr bf.periodFrequency 1, jsOr bf.feeSchedulerMode 0, jsOr activationPoint 0⟩

/-- Elapsed periods (`meteora-client.ts:88-100`): both the timestamp branch
and the slot branch compute
`periodFrequency > 0 ? Math.floor((now - activationPoint) / periodFrequency) : 0`
for the respective current point `now`, which is a parameter here. -/
def schedElapsedPeriods (s : FeeSchedule) (now : ℤ) : ℤ :=
  if 0 < s.periodFrequency then jsFloorDiv (now - s.activationPoint) s.periodFrequency else 0

/-- `const effectivePeriods = Math.min(elapsedPeriods, numberOfPeriod)`
(`meteora-client.ts:103`). -/
def schedEffectivePeriods (s : FeeSchedule) (now : ℤ) : ℤ :=
  min (schedElapsedPeriods s now) s.numberOfPeriod

/-- `currentFeeNumerator` by scheduler mode (`meteora-client.ts:106-116`):
linear (`mode 0`), exponential (`mode 1`), unknown mode keeps the cliff fee. -/
def schedCurrentNumerator (s : FeeSchedule) (now : ℤ) : ℚ :=
  if s.feeSchedulerMode = 0 then
    max 0 ((s.cliffFeeNumerator : ℚ) - (schedEffectivePeriods s now : ℚ) * (s.reductionFactor : ℚ))
  else if s.feeSchedulerMode = 1 then
    (s.cliffFeeNumerator : ℚ) * (1 - (s.reductionFactor : ℚ) / 10000) ^ (schedEffectivePeriods s now)
  else
    (s.cliffFeeNumerator : ℚ)

/-- `const FEE_DENOMINATOR = 1000000000` (`meteora-client.ts:119`). -/
def FEE_DENOMINATOR : ℚ := 1000000000

/-- `Math.max(0, (currentFeeNumerator / FEE_DENOMINATOR) * 100)`
(`meteora-client.ts:120-122`). -/
def schedFeePercentage (s : FeeSchedule) (now : ℤ) : ℚ :=
  max 0 (schedCurrentNumerator s now / FEE_DENOMINATOR * 100)

/-- `getCurrentFeeRate` (`meteora-client.ts:74-132`).  When the pool state
has no `poolFees.baseFee` object the fixed fallback rate `25` is returned;
the `catch` branch of the source likewise returns `25`. -/
def getCurrentFeeRate (p : PoolState) (now : ℤ) : ℚ :=
  match p.poolFees with
  | some bf => schedFeePercentage (extractSchedule bf p.activationPoint) now
  | none => 25

/-- Modelled from the spec: the fee-rate algorithm exactly as §4.1 and claim
C1 word it — `elapsedPeriods = floor((now - activationPoint)/periodLength)`
(zero when `periodLength ≤ 0`), `effectivePeriods = min(elapsedPeriods,
numberOfPeriods)`, linear `max(0, cliff - eff * reduction)`, exponential
`cliff * (1 - reduction/10000)^eff`, unknown mode `cliff`, output
`num / 1_000_000_000 * 100` floored at `0`. -/
def specFeeRate (s : FeeSchedule) (now : ℤ) : ℚ :=
  let elapsedPeriods : ℤ :=
    if s.periodFrequency ≤ 0 then 0
    else ⌊((now - s.activationPoint : ℤ) : ℚ) / (s.periodFrequency : ℚ)⌋
  let effectivePeriods : ℤ := min elapsedPeriods s.numberOfPeriod
  let currentNumerator : ℚ :=
    if s.feeSchedulerMode = 0 then
      max 0 ((s.cliffFeeNumerator : ℚ) - (effectivePeriods : ℚ) * (s.reductionFactor : ℚ))
    else if s.feeSchedulerMode = 1 then
      (s.cliffFeeNumerator : ℚ) * (1 - (s.reductionFactor : ℚ) / 10000) ^ effectivePeriods
    else
      (s.cliffFeeNumerator : ℚ)
  max 0 (currentNumerator / 1000000000 * 100)

/-- Claim C1: for every pool state carrying fee-schedule parameters and every
current point `now`, `getCurrentFeeRate` returns exactly the value of the
spec's algorithm: `elapsedPeriods = floor((now - activationPoint) /
periodLength)` (zero when `periodLength ≤ 0`), `effectivePeriods =
min(elapsedPeriods, numberOfPeriod)`, then the linear / exponential /
unknown-mode numerator, scaled by `1/1_000_000_000 * 100` and floored at 0. -/
theorem getCurrentFeeRate_follows_spec (p : PoolState) (bf : BaseFee) (now : ℤ)
    (h : p.poolFees = some bf) :
    getCurrentFeeRate p now = specFeeRate (extractSchedule bf p.activationPoint) now := by
  obtain ⟨fees, act⟩ := p
  simp only [PoolState.poolFees] at h
  subst h
  unfold getCurrentFeeRate schedFeePercentage schedCurrentNumerator schedEffectivePeriods
    schedElapsedPeriods jsFloorDiv specFeeRate FEE_DENOMINATOR
  rcases le_or_lt (extractSchedule bf act).periodFrequency 0 with hf | hf
  · simp only [if_pos hf, if_neg (not_lt.mpr hf)]
  · simp only [if_pos hf, if_neg (not_le.mpr hf)]

/-- Witness for C1: the spec's worked scenario (cliff 500000000, 10 periods,
reduction 50000000, linear, period length 3600, activation 0) at
`now = 36000`. -/
theorem getCurrentFeeRate_follows_spec_witness :
    getCurrentFeeRate ⟨some ⟨some 500000000, some 10, some 50000000, some 3600, some 0⟩, some 0⟩ 36000
      = specFeeRate (extractSchedule ⟨some 500000000, some 10, some 50000000, some 3600, some 0⟩ (some 0)) 36000 :=
  getCurrentFeeRate_follows_spec
    ⟨some ⟨some 500000000, some 10, some 50000000, some 3600, some 0⟩, some 0⟩
    ⟨some 500000000, some 10, some 50000000, some 3600, some 0⟩ 36000 rfl

/-- Claim C3: whenever fee-schedule data is absent from the pool state (no
`poolFees.baseFee` object), `getCurrentFeeRate` returns the fixed moderate
fallback rate 25 instead of failing the caller. -/
theorem getCurrentFeeRate_fallback (p : PoolState) (now : ℤ)
    (h : p.poolFees = none) : getCurrentFeeRate p now = 25 := by
  obtain ⟨fees, act⟩ := p
  simp only [PoolState.poolFees] at h
  subst h
  rfl

/-- Witness for C3: a pool state with no fee schedule yields rate 25. -/
theorem getCurrentFeeRate_fallback_witness :
    getCurrentFeeRate ⟨none, some 7⟩ 1234 = 25 :=
  getCurrentFeeRate_fallback ⟨none, some 7⟩ 1234 rfl

/-- Elapsed periods are monotone in the current point. -/
lemma schedElapsedPeriods_mono (s : FeeSchedule) {n n' : ℤ} (h : n ≤ n') :
    schedElapsedPeriods s n ≤ schedElapsedPeriods s n' := by
  unfold schedElapsedPeriods jsFloorDiv
  split
  · next hf =>
    refine Int.floor_mono ?_
    refine (div_le_div_iff_of_pos_right (by exact_mod_cast hf)).mpr ?_
    exact_mod_cast sub_le_sub_right h _
  · exact le_rfl

/-- Effective periods are monotone in the current point. -/
lemma schedEffectivePeriods_mono (s : FeeSchedule) {n n' : ℤ} (h : n ≤ n') :
    schedEffectivePeriods s n ≤ schedEffectivePeriods s n' :=
  min_le_min (schedElapsedPeriods_mono s h) le_rfl

/-- Past schedule completion the effective periods stick at `numberOfPeriod`. -/
lemma schedEffectivePeriods_complete (s : FeeSchedule) (hf : 0 < s.periodFrequency)
    {n : ℤ} (h : s.activationPoint + s.numberOfPeriod * s.periodFrequency ≤ n) :
    schedEffectivePeriods s n = s.numberOfPeriod := by
  have hfq : ((s.periodFrequency : ℚ)) ≠ 0 := by exact_mod_cast hf.ne'
  have hbase : s.numberOfPeriod ≤ schedElapsedPeriods s n := by
    unfold schedElapsedPeriods jsFloorDiv
    rw [if_pos hf]
    have h1 : ((s.numberOfPeriod * s.periodFrequency : ℤ) : ℚ) / (s.periodFrequency : ℚ)
        = (s.numberOfPeriod : ℚ) := by
      push_cast
      exact mul_div_cancel_right₀ _ hfq
    have h2 : ((s.numberOfPeriod * s.periodFrequency : ℤ) : ℚ) / (s.periodFrequency : ℚ)
        ≤ ((n - s.activationPoint : ℤ) : ℚ) / (s.periodFrequency : ℚ) := by
      refine (div_le_div_iff_of_pos_right (by exact_mod_cast hf)).mpr ?_
      exact_mod_cast le_sub_iff_add_le'.mpr h
    calc s.numberOfPeriod = ⌊(s.numberOfPeriod : ℚ)⌋ := (Int.floor_intCast _).symm
      _ = ⌊((s.numberOfPeriod * s.periodFrequency : ℤ) : ℚ) / (s.periodFrequency : ℚ)⌋ := by
          rw [h1]
      _ ≤ ⌊((n - s.activationPoint : ℤ) : ℚ) / (s.periodFrequency : ℚ)⌋ := Int.floor_mono h2
  exact min_eq_right hbase

/-- In linear mode with non-negative reduction factor, the current numerator
is non-increasing in the current point. -/
lemma schedCurrentNumerator_antitone (s : FeeSchedule) (hmode : s.feeSchedulerMode = 0)
    (hred : 0 ≤ s.reductionFactor) {n n' : ℤ} (h : n ≤ n') :
    schedCurrentNumerator s n' ≤ schedCurrentNumerator s n := by
  unfold schedCurrentNumerator
  rw [if_pos hmode, if_pos hmode]
  refine max_le_max le_rfl (sub_le_sub_left ?_ _)
  refine mul_le_mul_of_nonneg_right ?_ (by exact_mod_cast hred)
  exact_mod_cast schedEffectivePeriods_mono s h

/-- The fee percentage is a monotone transform of the numerator. -/
lemma schedFeePercentage_le (s : FeeSchedule) {n n' : ℤ}
    (h : schedCurrentNumerator s n' ≤ schedCurrentNumerator s n) :
    schedFeePercentage s n' ≤ schedFeePercentage s n := by
  unfold schedFeePercentage FEE_DENOMINATOR
  refine max_le_max le_rfl ?_
  refine mul_le_mul_of_nonneg_right ?_ (by norm_num)
  exact (div_le_div_iff_of_pos_right (by norm_num)).mpr h

/-- Claim C2: for every fee schedule in linear mode (with its non-negative
on-chain reduction factor), `getCurrentFeeRate` is non-increasing as `now`
increases and is always ≥ 0; `effectivePeriods` never exceeds
`numberOfPeriod`; and for every `now` at or beyond schedule completion the
returned rate is constant (equal to the rate at the completion point). -/
theorem linear_feeRate_monotone (bf : BaseFee) (act : Option ℤ)
    (hmode : (extractSchedule bf act).feeSchedulerMode = 0)
    (hred : 0 ≤ (extractSchedule bf act).reductionFactor) :
    (∀ n n', n ≤ n' →
      getCurrentFeeRate ⟨some bf, act⟩ n' ≤ getCurrentFeeRate ⟨some bf, act⟩ n)
    ∧ (∀ n, 0 ≤ getCurrentFeeRate ⟨some bf, act⟩ n)
    ∧ (∀ n, schedEffectivePeriods (extractSchedule bf act) n
        ≤ (extractSchedule bf act).numberOfPeriod)
    ∧ (0 < (extractSchedule bf act).periodFrequency →
        ∀ n, (extractSchedule bf act).activationPoint
            + (extractSchedule bf act).numberOfPeriod * (extractSchedule bf act).periodFrequency ≤ n →
          getCurrentFeeRate ⟨some bf, act⟩ n
            = getCurrentFeeRate ⟨some bf, act⟩
                ((extractSchedule bf act).activationPoint
                  + (extractSchedule bf act).numberOfPeriod * (extractSchedule bf act).periodFrequency)) := by
  refine ⟨?_, ?_, ?_, ?_⟩
  · intro n n' h
    exact schedFeePercentage_le _ (schedCurrentNumerator_antitone _ hmode hred h)
  · intro n
    exact le_max_left 0 _
  · intro n
    exact min_le_right _ _
  · intro hf n h
    show schedFeePercentage _ n = schedFeePercentage _ _
    unfold schedFeePercentage schedCurrentNumerator
    rw [schedEffectivePeriods_complete _ hf h,
      schedEffectivePeriods_complete _ hf le_rfl]

/-- Witness for C2: the spec's linear scenario schedule; the rate at 7200s is
at most the rate at 3600s, and the rate is non-negative. -/
theorem linear_feeRate_monotone_witness :
    getCurrentFeeRate ⟨some ⟨some 500000000, some 10, some 50000000, some 3600, some 0⟩, some 0⟩ 7200
      ≤ getCurrentFeeRate ⟨some ⟨some 500000000, some 10, some 50000000, some 3600, some 0⟩, some 0⟩ 3600
    ∧ 0 ≤ getCurrentFeeRate ⟨some ⟨some 500000000, some 10, some 50000000, some 3600, some 0⟩, some 0⟩ 3600 :=
  ⟨(linear_feeRate_monotone ⟨some 500000000, some 10, some 50000000, some 3600, some 0⟩ (some 0)
      (by decide) (by decide)).1 3600 7200 (by decide),
   (linear_feeRate_monotone ⟨some 500000000, some 10, some 50000000, some 3600, some 0⟩ (some 0)
      (by decide) (by decide)).2.1 3600⟩

/-- A pool-state slice as used by the fee/deposit conversion of
`getUserPositions` (`meteora-client.ts:190-232`): the two token mints,
identified by opaque numeric keys. -/
structure PoolSnap where
  tokenAMint : ℕ
  tokenBMint : ℕ
  deriving Repr, DecidableEq

/-- One raw entry of the SDK position enumeration
(`getPositionsByUser` / `getUserPositionByPool`): the position public key,
the pool it belongs to, and the optional position NFT account. -/
structure RawPositionInfo where
  position : ℕ
  pool : ℕ
  positionNftAccount : Option ℕ
  deriving Repr, DecidableEq

/-- The `Position` records built by `getUserPositions`
(`meteora-client.ts:7-15`): fee amounts stored in lamports, deposit amounts
stored as SOL-equivalent values. -/
structure Position where
  publicKey : ℕ
  pool : ℕ
  feeOwedA : ℤ
  feeOwedB : ℤ
  depositA : ℚ
  depositB : ℚ
  positionNftAccount : Option ℕ
  deriving Repr, DecidableEq

/-- The remote collaborators consumed by `getUserPositions`, as oracles:
`poolOf` is `cpAmm.fetchPoolState` (`none` = null result or a thrown error);
`unclaimedFees` is the opaque `getUnClaimReward` SDK formula;
`withdrawAmounts` is `getPositionTokenAmounts` (internally total — it
returns `(0, 0)` on its own failures); `quote` is
`jupiterClient.getQuote(mint, SOL, amount).outAmount` with `none` covering a
null quote or a thrown error; `itemFails` covers any other error thrown
inside the per-position `try` block. -/
structure DiscoveryEnv where
  solMint : ℕ
  poolOf : ℕ → Option PoolSnap
  unclaimedFees : RawPositionInfo → ℤ × ℤ
  withdrawAmounts : RawPositionInfo → ℤ × ℤ
  quote : ℕ → ℤ → Option ℤ
  itemFails : RawPositionInfo → Bool

/-- The per-position conversion of `getUserPositions`
(`meteora-client.ts:182-245`): fees of a token count only when that token's
mint is the SOL mint; the token-B deposit is scaled directly for SOL and
otherwise converted through a Jupiter quote; the token-A deposit is counted
only when token A is SOL and positive. -/
def buildPosition (env : DiscoveryEnv) (pst : PoolSnap) (info : RawPositionInfo) : Position :=
  let rawFeeOwedA := (env.unclaimedFees info).1
  let rawFeeOwedB := (env.unclaimedFees info).2
  let depositA := (env.withdrawAmounts info).1
  let depositB := (env.withdrawAmounts info).2
  let feeOwedAInLamports : ℤ :=
    if 0 < rawFeeOwedA then
      if pst.tokenAMint = env.solMint then rawFeeOwedA else 0
    else 0
  let feeOwedBInLamports : ℤ :=
    if 0 < rawFeeOwedB then
      if pst.tokenBMint = env.solMint then rawFeeOwedB else 0
    else 0
  let depositBInSOL : ℚ :=
    if pst.tokenBMint = env.solMint then (depositB : ℚ) / 1000000000
    else
      match env.quote pst.tokenBMint depositB with
      | some out => (out : ℚ) / 1000000000
      | none => 0
  let depositAInSOL : ℚ :=
    if pst.tokenAMint = env.solMint ∧ 0 < depositA then (depositA : ℚ) / 1000000000 else 0
  ⟨info.position, info.pool, feeOwedAInLamports, feeOwedBInLamports,
   depositAInSOL, depositBInSOL, info.positionNftAccount⟩

/-- One iteration of the position loop of `getUserPositions`
(`meteora-client.ts:170-250`): a thrown error or a missing pool state makes
the loop `continue`, dropping the entry. -/
def processItem (env : DiscoveryEnv) (info : RawPositionInfo) : Option Position :=
  if env.itemFails info then none
  else
    match env.poolOf info.pool with
    | none => none
    | some pst => some (buildPosition env pst info)

/-- `getUserPositions` (`meteora-client.ts:149-257`).  `fetched = none`
models a failure (or null result) of the top-level enumeration, which the
outer `catch` turns into the empty list. -/
def getUserPositions (env : DiscoveryEnv) (fetched : Option (List RawPositionInfo)) :
    List Position :=
  match fetched with
  | none => []
  | some items => items.filterMap (processItem env)

/-- Claim C10: `getUserPositions` always returns a (possibly empty) list —
a top-level enumeration failure yields the empty list, and an error while
processing one position record removes only that record from the output,
leaving the surrounding positions untouched. -/
theorem getUserPositions_isolates_item_errors (env : DiscoveryEnv) :
    getUserPositions env none = []
    ∧ (∀ (before after : List RawPositionInfo) (bad : RawPositionInfo),
        processItem env bad = none →
        getUserPositions env (some (before ++ bad :: after))
          = getUserPositions env (some before) ++ getUserPositions env (some after)) := by
  refine ⟨rfl, ?_⟩
  intro before after bad hbad
  simp [getUserPositions, List.filterMap_append, List.filterMap_cons, hbad]

/-- Witness for C10: a batch of three raw entries whose middle entry fails
to process collapses to the two surrounding positions. -/
theorem getUserPositions_isolates_item_errors_witness :
    getUserPositions
        ⟨0, fun _ => some ⟨0, 0⟩, fun _ => (0, 0), fun _ => (0, 0), fun _ _ => none,
          fun info => info.position = 2⟩
        (some [⟨1, 5, some 11⟩, ⟨2, 5, some 12⟩, ⟨3, 5, some 13⟩])
      = getUserPositions
          ⟨0, fun _ => some ⟨0, 0⟩, fun _ => (0, 0), fun _ => (0, 0), fun _ _ => none,
            fun info => info.position = 2⟩ (some [⟨1, 5, some 11⟩])
        ++ getUserPositions
            ⟨0, fun _ => some ⟨0, 0⟩, fun _ => (0, 0), fun _ => (0, 0), fun _ _ => none,
              fun info => info.position = 2⟩ (some [⟨3, 5, some 13⟩]) :=
  (getUserPositions_isolates_item_errors _).2 [⟨1, 5, some 11⟩] [⟨3, 5, some 13⟩]
    ⟨2, 5, some 12⟩ rfl

/-- The token-A deposit conversion as claim C5 words it: deposit amounts for
BOTH tokens always attempt full conversion to reference units via a swap
quote when the token is not the reference asset.  (The source applies this
rule only to token B; token A deposits are counted only when token A is SOL,
see `meteora-client.ts:228-232`.) -/
def claimedDepositA (env : DiscoveryEnv) (pst : PoolSnap) (info : RawPositionInfo) : ℚ :=
  let depositA := (env.withdrawAmounts info).1
  if pst.tokenAMint = env.solMint then (depositA : ℚ) / 1000000000
  else
    match env.quote pst.tokenAMint depositA with
    | some out => (out : ℚ) / 1000000000
    | none => 0

/-- Counterexample to C5: a position whose token A is not the reference
asset and has a positive withdrawable amount, in an environment where a
quote is available.  The claim's rule would record the quoted value 7, but
`getUserPositions` records 0 for the token-A deposit without attempting any
conversion. -/
theorem getUserPositions_depositA_counterexample :
    (buildPosition
        ⟨0, fun _ => some ⟨9, 9⟩, fun _ => (0, 0), fun _ => (5000000000, 0),
          fun _ _ => some 7000000000, fun _ => false⟩
        ⟨9, 9⟩ ⟨1, 5, some 11⟩).depositA = 0
    ∧ claimedDepositA
        ⟨0, fun _ => some ⟨9, 9⟩, fun _ => (0, 0), fun _ => (5000000000, 0),
          fun _ _ => some 7000000000, fun _ => false⟩
        ⟨9, 9⟩ ⟨1, 5, some 11⟩ = 7
    ∧ (buildPosition
        ⟨0, fun _ => some ⟨9, 9⟩, fun _ => (0, 0), fun _ => (5000000000, 0),
          fun _ _ => some 7000000000, fun _ => false⟩
        ⟨9, 9⟩ ⟨1, 5, some 11⟩).depositA
      ≠ claimedDepositA
          ⟨0, fun _ => some ⟨9, 9⟩, fun _ => (0, 0), fun _ => (5000000000, 0),
            fun _ _ => some 7000000000, fun _ => false⟩
          ⟨9, 9⟩ ⟨1, 5, some 11⟩ := by
  refine ⟨rfl, by norm_num [claimedDepositA], ?_⟩
  intro h
  rw [show (buildPosition
        ⟨0, fun _ => some ⟨9, 9⟩, fun _ => (0, 0), fun _ => (5000000000, 0),
          fun _ _ => some 7000000000, fun _ => false⟩
        ⟨9, 9⟩ ⟨1, 5, some 11⟩).depositA = 0 from rfl] at h
  norm_num [claimedDepositA] at h

/-- Claim C5 as amended: fee amounts of either token are recorded in
reference units only when that token is the reference asset directly (a
non-reference token's positive fees contribute 0); the token-B deposit
always attempts full conversion via a swap quote when token B is not the
reference asset; the token-A deposit is counted only when token A is the
reference asset and positive — no quote is attempted for a non-reference
token A. -/
theorem getUserPositions_conversion_rules (env : DiscoveryEnv) (pst : PoolSnap)
    (info : RawPositionInfo) :
    (buildPosition env pst info).feeOwedA
        = (if 0 < (env.unclaimedFees info).1 ∧ pst.tokenAMint = env.solMint
            then (env.unclaimedFees info).1 else 0)
    ∧ (buildPosition env pst info).feeOwedB
        = (if 0 < (env.unclaimedFees info).2 ∧ pst.tokenBMint = env.solMint
            then (env.unclaimedFees info).2 else 0)
    ∧ (buildPosition env pst info).depositB
        = (if pst.tokenBMint = env.solMint
            then ((env.withdrawAmounts info).2 : ℚ) / 1000000000
            else
              match env.quote pst.tokenBMint (env.withdrawAmounts info).2 with
              | some out => (out : ℚ) / 1000000000
              | none => 0)
    ∧ (buildPosition env pst info).depositA
        = (if pst.tokenAMint = env.solMint ∧ 0 < (env.withdrawAmounts info).1
            then ((env.withdrawAmounts info).1 : ℚ) / 1000000000 else 0) := by
  unfold buildPosition
  refine ⟨?_, ?_, rfl, rfl⟩
  · by_cases h1 : 0 < (env.unclaimedFees info).1
    · by_cases h2 : pst.tokenAMint = env.solMint <;> simp [h1, h2]
    · simp [h1]
  · by_cases h1 : 0 < (env.unclaimedFees info).2
    · by_cases h2 : pst.tokenBMint = env.solMint <;> simp [h1, h2]
    · simp [h1]

/-- The minimum-fee filter of `claimAllFees` (`index.ts:277-283`):
`totalFees = feeOwedA + feeOwedB; totalFees >= minFeeThreshold`. -/
def positionsWithFees (minFeeThreshold : ℤ) (ps : List Position) : List Position :=
  ps.filter (fun p => minFeeThreshold ≤ p.feeOwedA + p.feeOwedB)

/-- Claim C4: in the fee-claiming flow a position is retained if and only if
`feeOwedA + feeOwedB ≥ minFeeThreshold` (the comparison is inclusive); with
floor 5,000,000,000 a position with `feeOwedB = 4,999,999,999` and
`feeOwedA = 0` is filtered out, while `feeOwedB = 5,000,000,000` is
retained. -/
theorem positionsWithFees_inclusive_floor :
    (∀ (t : ℤ) (ps : List Position) (p : Position),
      p ∈ positionsWithFees t ps ↔ p ∈ ps ∧ t ≤ p.feeOwedA + p.feeOwedB)
    ∧ positionsWithFees 5000000000 [⟨1, 1, 0, 4999999999, 0, 0, some 1⟩] = []
    ∧ positionsWithFees 5000000000 [⟨2, 1, 0, 5000000000, 0, 0, some 1⟩]
        = [⟨2, 1, 0, 5000000000, 0, 0, some 1⟩] := by
  refine ⟨?_, by decide, by decide⟩
  intro t ps p
  simp [positionsWithFees, List.mem_filter]

/-- The remote environment of the pre-close filtering in `handleCloseAll`:
`poolState` is `cpAmm.fetchPoolState` keyed by pool public key (`none` = a
thrown error), `now` is the current chain point used by
`getCurrentFeeRate`. -/
structure FilterEnv where
  poolState : ℕ → Option PoolState
  now : ℤ

/-- `isPoolEligibleForClosing` (`meteora-client.ts:135-147`): fetch the pool
state, compute `getCurrentFeeRate`, compare `currentFeeRate <= maxFeeRate`;
the `catch` branch returns `false` (do not close when eligibility is
unknown). -/
def isPoolEligibleForClosing (env : FilterEnv) (pool : ℕ) (maxFeeRate : ℚ) : Bool :=
  match env.poolState pool with
  | some st => decide (getCurrentFeeRate st env.now ≤ maxFeeRate)
  | none => false

/-- The fee-rate pre-filter of `handleCloseAll` (`index.ts:712-740`): keep
exactly the positions whose pool passes `isPoolEligibleForClosing`; a
per-position check error also skips the position, which the `none` case of
`isPoolEligibleForClosing` already covers. -/
def feeRateFilter (env : FilterEnv) (maxFeeRate : ℚ) (ps : List Position) : List Position :=
  ps.filter (fun p => isPoolEligibleForClosing env p.pool maxFeeRate)

/-- The deposit filter of `handleCloseAll` (`index.ts:742-765`):
`totalDeposit = depositA + depositB; totalDeposit <= maxDeposit` (both in
SOL units). -/
def depositFilter (maxDeposit : ℚ) (ps : List Position) : List Position :=
  ps.filter (fun p => p.depositA + p.depositB ≤ maxDeposit)

/-- Modelled from the spec: both enabled filters applied in one pass, as the
composition property of §8 words it. -/
def combinedFilter (env : FilterEnv) (maxFeeRate maxDeposit : ℚ) (ps : List Position) :
    List Position :=
  ps.filter (fun p =>
    isPoolEligibleForClosing env p.pool maxFeeRate && p.depositA + p.depositB ≤ maxDeposit)

/-- Claim C6: applying the fee-rate-ceiling filter and then the
deposit-ceiling filter to its eligible output yields the same eligible set
as applying both filters in one pass, in either order (the filters commute
and are independent); and no filter mutates any input position — each
filter's output is a sublist of its input. -/
theorem filters_commute (env : FilterEnv) (maxFeeRate maxDeposit : ℚ) (ps : List Position) :
    depositFilter maxDeposit (feeRateFilter env maxFeeRate ps)
        = combinedFilter env maxFeeRate maxDeposit ps
    ∧ feeRateFilter env maxFeeRate (depositFilter maxDeposit ps)
        = combinedFilter env maxFeeRate maxDeposit ps
    ∧ (feeRateFilter env maxFeeRate ps).Sublist ps
    ∧ (depositFilter maxDeposit ps).Sublist ps := by
  refine ⟨?_, ?_, List.filter_sublist ps, List.filter_sublist ps⟩
  · unfold depositFilter feeRateFilter combinedFilter
    rw [List.filter_filter]
    refine List.filter_congr ?_
    intro p _
    exact Bool.and_comm _ _
  · unfold depositFilter feeRateFilter combinedFilter
    rw [List.filter_filter]

/-- Outcome of one remote mutating operation: a transaction signature or a
thrown error, both as opaque numeric codes. -/
inductive StepOutcome
  | ok (sig : ℕ)
  | err (msg : ℕ)
  deriving Repr, DecidableEq

/-- The remote operations invoked by the per-position body of
`closeAllPositions` (`index.ts:1159-1282`), as per-position oracles:
`claim` is `meteoraClient.claimFees`, `close` is
`removeAllLiquidityAndClosePosition` / `closePosition` (whichever branch the
liquidity check selects — the result accounting is the same).  Swap failures
are caught inside `swapTokensToSOL` and never fail the position, so they do
not appear here. -/
structure BatchEnv where
  claim : Position → StepOutcome
  close : Position → StepOutcome

/-- The per-position record of a batch run: `success` increments
`successfulOperations`; `failed` is the `catch` branch of the per-position
`try`; `skippedNoNft` is the `continue` for a missing NFT account. -/
inductive PositionResult
  | success
  | failed
  | skippedNoNft
  deriving Repr, DecidableEq

/-- The body of the `closeAllPositions` loop for one position
(`index.ts:1165-1281`): skip if the NFT account is missing; claim fees when
any are owed (a thrown error is caught at this position's boundary); then
close; `success` only when every attempted step succeeded. -/
def processPosition (env : BatchEnv) (p : Position) : PositionResult :=
  match p.positionNftAccount with
  | none => .skippedNoNft
  | some _ =>
    if 0 < p.feeOwedA ∨ 0 < p.feeOwedB then
      match env.claim p with
      | .err _ => .failed
      | .ok _ =>
        match env.close p with
        | .err _ => .failed
        | .ok _ => .success
    else
      match env.close p with
      | .err _ => .failed
      | .ok _ => .success

/-- The batch loop of `closeAllPositions` (`index.ts:1159-1282`): every
position is processed in order, each failure confined to its own result. -/
def closeAllPositionsRun (env : BatchEnv) (ps : List Position) :
    List (Position × PositionResult) :=
  ps.map (fun p => (p, processPosition env p))

/-- Claim C7: a failure in one position's operations is caught at that
position's boundary and recorded against that position only, and the batch
continues: the run always produces one result per input position, in order
(`map Prod.fst` returns the input list unchanged, so no per-position failure
ever aborts the batch), and each result depends only on its own position.
In the concrete 3-position scenario where the claim operation fails for
position 2 only, the run yields exactly [success, failed, success] — one
failed result, two successes, and position 3 is still attempted. -/
theorem closeAllPositions_partial_failure :
    (∀ (env : BatchEnv) (ps : List Position),
      (closeAllPositionsRun env ps).map Prod.fst = ps)
    ∧ (∀ (env env' : BatchEnv) (p : Position),
        env.claim p = env'.claim p → env.close p = env'.close p →
        processPosition env p = processPosition env' p)
    ∧ closeAllPositionsRun
        ⟨fun p => if p.publicKey = 2 then .err 0 else .ok 100, fun _ => .ok 200⟩
        [⟨1, 1, 5, 0, 0, 0, some 11⟩, ⟨2, 1, 5, 0, 0, 0, some 12⟩, ⟨3, 1, 5, 0, 0, 0, some 13⟩]
      = [(⟨1, 1, 5, 0, 0, 0, some 11⟩, .success),
         (⟨2, 1, 5, 0, 0, 0, some 12⟩, .failed),
         (⟨3, 1, 5, 0, 0, 0, some 13⟩, .success)] := by
  refine ⟨?_, ?_, by decide⟩
  · intro env ps
    induction ps with
    | nil => rfl
    | cons hd tl ih => simpa [closeAllPositionsRun] using ih
  · intro env env' p hclaim hclose
    unfold processPosition
    rw [hclaim, hclose]

/-- The two claim strategies of `claimFees`: the SDK's `claimPositionFee`
call (primary) and the `claimPositionFee2` call used only in the outer
`catch` (alternative). -/
inductive ClaimStrategy
  | primaryMethod
  | alternativeMethod
  deriving Repr, DecidableEq

/-- The outcomes of the two whole claim attempts of `claimFees`
(`meteora-client.ts:259-450`): each attempt covers state fetch, transaction
build, submission and confirmation; any thrown error inside an attempt is
its `err` outcome. -/
structure ClaimEnv where
  primaryResult : StepOutcome
  alternativeResult : StepOutcome

/-- The result of `claimFees`: the successful attempt's signature, or — when
both attempts fail — one combined error carrying both failure messages
(`meteora-client.ts:447`). -/
def claimFeesResult (env : ClaimEnv) : Except (ℕ × ℕ) ℕ :=
  match env.primaryResult with
  | .ok sig => .ok sig
  | .err e1 =>
    match env.alternativeResult with
    | .ok sig2 => .ok sig2
    | .err e2 => .error (e1, e2)

/-- The attempts actually made by `claimFees`, in order: the primary method
always; the alternative method exactly when the primary attempt threw. -/
def claimFeesAttempts (env : ClaimEnv) : List ClaimStrategy :=
  match env.primaryResult with
  | .ok _ => [.primaryMethod]
  | .err _ => [.primaryMethod, .alternativeMethod]

/-- Claim C8: `claimFees` attempts the primary claim method first; the
alternative method is attempted exactly once and only if the primary attempt
fails; on either attempt's success the function returns that attempt's
signature; and if both attempts fail it raises a single error combining both
failure messages. -/
theorem claimFees_fallback (env : ClaimEnv) :
    (claimFeesAttempts env).head? = some .primaryMethod
    ∧ ((claimFeesAttempts env).count .alternativeMethod
        = match env.primaryResult with | .ok _ => 0 | .err _ => 1)
    ∧ (∀ s, env.primaryResult = .ok s →
        claimFeesResult env = .ok s ∧ claimFeesAttempts env = [.primaryMethod])
    ∧ (∀ e1 s2, env.primaryResult = .err e1 → env.alternativeResult = .ok s2 →
        claimFeesResult env = .ok s2
          ∧ claimFeesAttempts env = [.primaryMethod, .alternativeMethod])
    ∧ (∀ e1 e2, env.primaryResult = .err e1 → env.alternativeResult = .err e2 →
        claimFeesResult env = .error (e1, e2)) := by
  obtain ⟨pr, ar⟩ := env
  refine ⟨?_, ?_, ?_, ?_, ?_⟩
  · cases pr <;> rfl
  · cases pr <;> simp [claimFeesAttempts]
  · intro s hs
    cases pr with
    | ok v => cases hs; exact ⟨rfl, rfl⟩
    | err e => cases hs
  · intro e1 s2 h1 h2
    cases pr with
    | ok v => cases h1
    | err e =>
      cases h1
      cases ar with
      | ok v2 => cases h2; exact ⟨rfl, rfl⟩
      | err e2 => cases h2
  · intro e1 e2 h1 h2
    cases pr with
    | ok v => cases h1
    | err e =>
      cases h1
      cases ar with
      | ok v2 => cases h2
      | err e2' => cases h2; rfl

/-- Witness for C8: with a failing primary attempt and a succeeding
alternative attempt, the primary method is tried first, the alternative
signature is returned and both methods appear once. -/
theorem claimFees_fallback_witness :
    (claimFeesAttempts ⟨.err 3, .ok 7⟩).head? = some .primaryMethod
    ∧ claimFeesResult ⟨.err 3, .ok 7⟩ = .ok 7
    ∧ claimFeesAttempts ⟨.err 3, .ok 7⟩ = [.primaryMethod, .alternativeMethod] :=
  ⟨(claimFees_fallback ⟨.err 3, .ok 7⟩).1,
   ((claimFees_fallback ⟨.err 3, .ok 7⟩).2.2.2.1 3 7 rfl rfl).1,
   ((claimFees_fallback ⟨.err 3, .ok 7⟩).2.2.2.1 3 7 rfl rfl).2⟩

/-- Trace of one `retry` run: the final result, how many times the operation
was invoked, and the sleep durations inserted between attempts, in order. -/
structure RetryTrace where
  result : Except ℕ ℕ
  calls : ℕ
  waits : List ℕ
  deriving Repr

/-- The loop of `retry` (`utils.ts:130-152`), unrolled on the number of
remaining attempts.  `fn n` is the outcome of the `n`-th invocation of the
operation (attempts are numbered from 1 as in the source).  On the last
attempt (`remaining = 0` after this one) the last error is re-raised;
otherwise the loop sleeps `delay * attempt` and continues.  The
`remaining = 0` base case is unreachable from `retry` with
`maxAttempts ≥ 1`. -/
def retryAux (fn : ℕ → Except ℕ ℕ) (delay : ℕ) : ℕ → ℕ → RetryTrace
  | _, 0 => ⟨.error 0, 0, []⟩
  | attempt, remaining + 1 =>
    match fn attempt with
    | .ok v => ⟨.ok v, 1, []⟩
    | .error e =>
      if remaining = 0 then ⟨.error e, 1, []⟩
      else
        let rest := retryAux fn delay (attempt + 1) remaining
        ⟨rest.result, rest.calls + 1, delay * attempt :: rest.waits⟩

/-- `retry(fn, maxAttempts, delay)` (`utils.ts:130-152`): the loop starts at
attempt 1. -/
def retry (fn : ℕ → Except ℕ ℕ) (maxAttempts : ℕ) (delay : ℕ) : RetryTrace :=
  retryAux fn delay 1 maxAttempts

lemma retryAux_calls_le (fn : ℕ → Except ℕ ℕ) (delay : ℕ) :
    ∀ (r a : ℕ), (retryAux fn delay a r).calls ≤ r := by
  intro r
  induction r with
  | zero => intro a; simp [retryAux]
  | succ n ih =>
    intro a
    cases hfa : fn a with
    | ok v => simp [retryAux, hfa]
    | error e =>
      by_cases hn : n = 0
      · subst hn; simp [retryAux, hfa]
      · simp only [retryAux, hfa, if_neg hn]
        exact Nat.succ_le_succ (ih _)

lemma retryAux_first_success (fn : ℕ → Except ℕ ℕ) (delay : ℕ) :
    ∀ (r a k v : ℕ), a ≤ k → k < a + r → fn k = .ok v →
      (∀ j, a ≤ j → j < k → ∃ e, fn j = .error e) →
      retryAux fn delay a r
        = ⟨.ok v, k - a + 1, (List.range (k - a)).map (fun i => delay * (a + i))⟩ := by
  intro r
  induction r with
  | zero => intro a k v hak hkr _ _; exact absurd hkr (by omega)
  | succ n ih =>
    intro a k v hak hkr hfk hprev
    rcases eq_or_lt_of_le hak with heq | hlt
    · subst heq
      simp [retryAux, hfk]
    · obtain ⟨e, hfa⟩ := hprev a le_rfl hlt
      have hn : n ≠ 0 := by omega
      have hrec := ih (a + 1) k v (by omega) (by omega) hfk
        (fun j hj1 hj2 => hprev j (by omega) hj2)
      simp only [retryAux, hfa, if_neg hn]
      rw [hrec]
      have hka : k - a = (k - (a + 1)) + 1 := by omega
      have hmap : (List.range (k - a)).map (fun i => delay * (a + i))
          = delay * a :: (List.range (k - (a + 1))).map (fun i => delay * (a + 1 + i)) := by
        rw [hka, List.range_succ_eq_map, List.map_cons, List.map_map]
        refine congrArg₂ _ (by ring_nf) ?_
        refine congrArg₂ _ ?_ rfl
        funext i
        show delay * (a + (i + 1)) = delay * (a + 1 + i)
        ring
      rw [hmap]
      have hc : k - a + 1 = (k - (a + 1) + 1) + 1 := by omega
      rw [hc]

lemma retryAux_all_fail (fn : ℕ → Except ℕ ℕ) (delay : ℕ) :
    ∀ (r a e : ℕ), 1 ≤ r →
      (∀ j, a ≤ j → j < a + r → ∃ e2, fn j = .error e2) →
      fn (a + r - 1) = .error e →
      retryAux fn delay a r
        = ⟨.error e, r, (List.range (r - 1)).map (fun i => delay * (a + i))⟩ := by
  intro r
  induction r with
  | zero => intro a e h; exact absurd h (by omega)
  | succ n ih =>
    intro a e h1 hall hlast
    by_cases hn : n = 0
    · subst hn
      have hfa : fn a = .error e := by simpa using hlast
      simp [retryAux, hfa]
    · obtain ⟨e0, hfa⟩ := hall a le_rfl (by omega)
      have hrec := ih (a + 1) e (by omega)
        (fun j hj1 hj2 => hall j (by omega) (by omega))
        (by rw [show (a + 1) + n - 1 = a + (n + 1) - 1 from by omega]; exact hlast)
      simp only [retryAux, hfa, if_neg hn]
      rw [hrec]
      have hmap : (List.range (n + 1 - 1)).map (fun i => delay * (a + i))
          = delay * a :: (List.range (n - 1)).map (fun i => delay * (a + 1 + i)) := by
        rw [show n + 1 - 1 = (n - 1) + 1 from by omega, List.range_succ_eq_map,
          List.map_cons, List.map_map]
        refine congrArg₂ _ (by ring_nf) ?_
        refine congrArg₂ _ ?_ rfl
        funext i
        show delay * (a + (i + 1)) = delay * (a + 1 + i)
        ring
      rw [hmap]

/-- Claim C9: `retry(fn, maxAttempts, delay)` with `maxAttempts ≥ 1` invokes
the operation at most `maxAttempts` times; it returns the first successful
attempt's result, having waited `delay * n` (linear backoff) after each
failed attempt `n < maxAttempts`; and when all `maxAttempts` attempts fail
it re-raises the last attempt's error, the waits being
`delay * 1, …, delay * (maxAttempts - 1)`. -/
theorem retry_spec (fn : ℕ → Except ℕ ℕ) (maxAttempts delay : ℕ)
    (hmax : 1 ≤ maxAttempts) :
    (retry fn maxAttempts delay).calls ≤ maxAttempts
    ∧ (∀ k v, 1 ≤ k → k ≤ maxAttempts → fn k = .ok v →
        (∀ j, 1 ≤ j → j < k → ∃ e, fn j = .error e) →
        retry fn maxAttempts delay
          = ⟨.ok v, k, (List.range (k - 1)).map (fun i => delay * (1 + i))⟩)
    ∧ (∀ e, (∀ j, 1 ≤ j → j ≤ maxAttempts → ∃ e2, fn j = .error e2) →
        fn maxAttempts = .error e →
        retry fn maxAttempts delay
          = ⟨.error e, maxAttempts,
              (List.range (maxAttempts - 1)).map (fun i => delay * (1 + i))⟩) := by
  refine ⟨retryAux_calls_le fn delay maxAttempts 1, ?_, ?_⟩
  · intro k v hk1 hkm hfk hprev
    have h := retryAux_first_success fn delay maxAttempts 1 k v hk1 (by omega) hfk
      (fun j hj1 hj2 => hprev j hj1 hj2)
    rw [retry, h, show k - 1 + 1 = k from by omega]
  · intro e hall hlast
    have h := retryAux_all_fail fn delay maxAttempts 1 e hmax
      (fun j hj1 hj2 => hall j hj1 (by omega))
      (by rw [show 1 + maxAttempts - 1 = maxAttempts from by omega]; exact hlast)
    rw [retry, h]

/-- Witness for C9: an operation that fails on attempt 1 and succeeds on
attempt 2, run with 3 allowed attempts and base delay 100: at most 3 calls,
and the trace is success 42 after 2 calls with a single 100ms backoff. -/
theorem retry_spec_witness :
    (retry (fun j => if j = 2 then Except.ok 42 else Except.error 9) 3 100).calls ≤ 3
    ∧ retry (fun j => if j = 2 then Except.ok 42 else Except.error 9) 3 100
        = ⟨.ok 42, 2, (List.range 1).map (fun i => 100 * (1 + i))⟩ :=
  ⟨(retry_spec (fun j => if j = 2 then Except.ok 42 else Except.error 9) 3 100 (by omega)).1,
   (retry_spec (fun j => if j = 2 then Except.ok 42 else Except.error 9) 3 100 (by omega)).2.1
     2 42 (by omega) (by omega) rfl
     (by
      intro j h1 h2
      rw [show j = 1 from by omega]
      exact ⟨9, rfl⟩)⟩

/-- Witness for C7: two batch environments that agree on a given position
(but not elsewhere) give that position the same result — a position's
outcome depends only on its own operations. -/
theorem closeAllPositions_partial_failure_witness :
    processPosition ⟨fun _ => .ok 1, fun _ => .ok 2⟩ ⟨1, 1, 5, 0, 0, 0, some 11⟩
      = processPosition
          ⟨fun q => if q.publicKey = 9 then .err 0 else .ok 1, fun _ => .ok 2⟩
          ⟨1, 1, 5, 0, 0, 0, some 11⟩ :=
  closeAllPositions_partial_failure.2.1
    ⟨fun _ => .ok 1, fun _ => .ok 2⟩
    ⟨fun q => if q.publicKey = 9 then .err 0 else .ok 1, fun _ => .ok 2⟩
    ⟨1, 1, 5, 0, 0, 0, some 11⟩ rfl rfl
